import Mathlib

/-!
Shallow embedding of the snowflake ID generator of src/src/lib.rs.

Machine integers are represented by their two's-complement bit patterns as
natural numbers: an i64 value is a Nat below 2 ^ 64, an i32 value is a Nat
below 2 ^ 32, and the u16 counter a Nat below 2 ^ 16. The generator only
performs equality tests on times and an unsigned comparison on the counter,
so this representation is exact; the signed views are recovered by the
functions toI64 and toI32 where a claim speaks about signedness.
-/

/-- State of the SnowflakeIdGen struct of src/src/lib.rs. The source field
named instance is called instance_ here because instance is a Lean keyword;
epoch stands for the opaque SystemTime captured at construction. -/
structure SnowflakeIdGen where
  epoch : Nat
  last_time_millis : Nat
  instance_ : Nat
  idx : Nat
deriving DecidableEq, Repr

/-- Sign extension of a 32-bit pattern to a 64-bit pattern: the cast
(x as i64) applied to an i32 value in the source. -/
def sext32 (x : Nat) : Nat :=
  if x < 2 ^ 31 then x else x + (2 ^ 64 - 2 ^ 32)

/-- The id expression of generate_with_millis_fn:
last_time_millis << 22 | ((instance << 12) as i64) | (idx as i64).
The i64 shift wraps modulo 2 ^ 64 and the instance shift is performed in
32-bit arithmetic (wrapping modulo 2 ^ 32) before the sign extension. -/
def encodeId (last inst idx : Nat) : Nat :=
  (last * 2 ^ 22) % 2 ^ 64 ||| sext32 ((inst * 2 ^ 12) % 2 ^ 32) ||| idx

/-- Constructor with_epoch of src/src/lib.rs: last_time_millis is
initialized from a clock read performed at construction, passed here as
init_millis; idx starts at 0. -/
def with_epoch (inst epoch init_millis : Nat) : SnowflakeIdGen :=
  { epoch := epoch, last_time_millis := init_millis, instance_ := inst, idx := 0 }

/-- Method generate_with_millis_fn of src/src/lib.rs. The clock read
f(self.epoch) is passed in as now_millis; the result is the optional id
together with the updated generator state. The counter increment is the
u16 addition idx += 1, hence the modulus 2 ^ 16. -/
def generate_with_millis (s : SnowflakeIdGen) (now_millis : Nat) :
    Option Nat × SnowflakeIdGen :=
  if now_millis = s.last_time_millis then
    if 4095 ≤ s.idx then
      (none, s)
    else
      let s1 : SnowflakeIdGen := { s with idx := (s.idx + 1) % 2 ^ 16 }
      (some (encodeId s1.last_time_millis s1.instance_ s1.idx), s1)
  else
    let s0 : SnowflakeIdGen := { s with last_time_millis := now_millis, idx := 0 }
    let s1 : SnowflakeIdGen := { s0 with idx := (s0.idx + 1) % 2 ^ 16 }
    (some (encodeId s1.last_time_millis s1.instance_ s1.idx), s1)

/-- Signed value of a 64-bit two's-complement pattern. -/
def toI64 (x : Nat) : Int :=
  if x < 2 ^ 63 then (x : Int) else (x : Int) - 2 ^ 64

/-- Signed value of a 32-bit two's-complement pattern. -/
def toI32 (x : Nat) : Int :=
  if x < 2 ^ 31 then (x : Int) else (x : Int) - 2 ^ 32

/-- Modelled from the spec: the decoder for the documented bit layout,
which the repository does not implement. Timestamp is bits 63..22,
instance bits 21..12, sequence bits 11..0 of the id pattern. -/
def decode (id : Nat) : Nat × Nat × Nat :=
  (id >>> 22, (id >>> 12) % 2 ^ 10, id % 2 ^ 12)

/-- Generator state after a sequence of generate calls whose clock reads
are the given list. -/
def runState (s : SnowflakeIdGen) : List Nat → SnowflakeIdGen
  | [] => s
  | t :: ts => runState (generate_with_millis s t).2 ts

/-- Ids returned by the successful calls in a sequence of generate calls. -/
def runIds (s : SnowflakeIdGen) : List Nat → List Nat
  | [] => []
  | t :: ts =>
    match generate_with_millis s t with
    | (some id, s1) => id :: runIds s1 ts
    | (none, s1) => runIds s1 ts

/-- The (last_time_millis, idx) pair recorded by each successful call in a
sequence of generate calls. -/
def runPairs (s : SnowflakeIdGen) : List Nat → List (Nat × Nat)
  | [] => []
  | t :: ts =>
    match generate_with_millis s t with
    | (some _, s1) => (s1.last_time_millis, s1.idx) :: runPairs s1 ts
    | (none, s1) => runPairs s1 ts

/-- A failing call returns the state untouched, and only happens when the
clock read equals the stored time while the counter is saturated. -/
theorem generate_none_eq {s : SnowflakeIdGen} {t : Nat} {s1 : SnowflakeIdGen}
    (h : generate_with_millis s t = (none, s1)) :
    s1 = s ∧ t = s.last_time_millis ∧ 4095 ≤ s.idx := by
  unfold generate_with_millis at h
  split at h
  next hteq =>
    split at h
    next hidx =>
      injection h with h1 h2
      exact ⟨h2.symm, hteq, hidx⟩
    next hidx =>
      injection h with h1 h2
      exact Option.noConfusion h1
  next hteq =>
    injection h with h1 h2
    exact Option.noConfusion h1

/-- Shape of a successful call: epoch and instance are untouched, the
stored time becomes the clock read, the counter lands in [1, 4095], and
the id is the encoding of the post-call fields. -/
theorem generate_some_eq {s : SnowflakeIdGen} {t id : Nat} {s1 : SnowflakeIdGen}
    (h : generate_with_millis s t = (some id, s1)) :
    s1.epoch = s.epoch ∧ s1.instance_ = s.instance_ ∧
    s1.last_time_millis = t ∧ 1 ≤ s1.idx ∧ s1.idx ≤ 4095 ∧
    id = encodeId t s.instance_ s1.idx ∧
    (t = s.last_time_millis → s.idx < 4095 ∧ s1.idx = s.idx + 1) ∧
    (t ≠ s.last_time_millis → s1.idx = 1) := by
  unfold generate_with_millis at h
  split at h
  next hteq =>
    split at h
    next hidx =>
      injection h with h1 h2
      exact Option.noConfusion h1
    next hidx =>
      injection h with h1 h2
      injection h1 with h1
      subst h2
      have hmod : (s.idx + 1) % 2 ^ 16 = s.idx + 1 := Nat.mod_eq_of_lt (by omega)
      refine ⟨rfl, rfl, hteq.symm, ?_, ?_, ?_, fun _ => ⟨by omega, ?_⟩, ?_⟩
      · simp only [hmod]; omega
      · simp only [hmod]; omega
      · rw [← h1]; simp only [hmod, hteq]
      · simp only [hmod]
      · intro hne; exact absurd hteq hne
  next hteq =>
    injection h with h1 h2
    injection h1 with h1
    subst h2
    refine ⟨rfl, rfl, rfl, ?_, ?_, ?_, fun heq => absurd heq hteq, fun _ => ?_⟩ <;>
      simp [← h1, encodeId]

/-- Bits below k of a multiple of 2 ^ k are clear. -/
theorem testBit_eq_false_of_mod_eq_zero {a k i : Nat} (h : a % 2 ^ k = 0)
    (hik : i < k) : a.testBit i = false := by
  have h2 := Nat.testBit_mod_two_pow a k i
  rw [h] at h2
  simpa [hik] using h2.symm

/-- Bitwise or of numbers with disjoint bit ranges is addition. -/
theorem lor_eq_add_of_mod_eq_zero {a b k : Nat} (ha : a % 2 ^ k = 0)
    (hb : b < 2 ^ k) : a ||| b = a + b := by
  apply Nat.eq_of_testBit_eq
  intro i
  rcases Nat.lt_or_ge i k with hik | hik
  · have hai := testBit_eq_false_of_mod_eq_zero ha hik
    have hmod : (a + b) % 2 ^ k = b := by
      rw [Nat.add_mod, ha]
      simp [Nat.mod_eq_of_lt hb]
    have hsum : (a + b).testBit i = b.testBit i := by
      calc (a + b).testBit i = ((a + b) % 2 ^ k).testBit i := by
            simp [Nat.testBit_mod_two_pow, hik]
        _ = b.testBit i := by rw [hmod]
    rw [Nat.testBit_lor, hai, hsum, Bool.false_or]
  · obtain ⟨j, rfl⟩ : ∃ j, i = k + j := ⟨i - k, by omega⟩
    obtain ⟨q, rfl⟩ : ∃ q, a = 2 ^ k * q := by
      refine ⟨a / 2 ^ k, ?_⟩
      rw [Nat.mul_comm]
      exact (Nat.div_mul_cancel (Nat.dvd_of_mod_eq_zero ha)).symm
    have hbj : b.testBit (k + j) = false :=
      Nat.testBit_lt_two_pow
        (lt_of_lt_of_le hb (Nat.pow_le_pow_right (by norm_num) (Nat.le_add_right k j)))
    have haj : (2 ^ k * q).testBit (k + j) = q.testBit j := by
      rw [Nat.mul_comm, ← Nat.shiftLeft_eq]
      simp [Nat.testBit_shiftLeft, Nat.le_add_right]
    have hsum : (2 ^ k * q + b).testBit (k + j) = q.testBit j := by
      have hdiv : (2 ^ k * q + b) / 2 ^ k = q := by
        rw [Nat.mul_add_div (Nat.two_pow_pos k), Nat.div_eq_of_lt hb, Nat.add_zero]
      rw [← Nat.testBit_shiftRight, Nat.shiftRight_eq_div_pow, hdiv]
    rw [Nat.testBit_lor, haj, hbj, hsum, Bool.or_false]

/-- Bitwise or of two multiples of 2 ^ k is a multiple of 2 ^ k. -/
theorem lor_mod_two_pow_eq_zero {a b k : Nat} (ha : a % 2 ^ k = 0)
    (hb : b % 2 ^ k = 0) : (a ||| b) % 2 ^ k = 0 := by
  apply Nat.eq_of_testBit_eq
  intro i
  simp only [Nat.testBit_mod_two_pow, Nat.testBit_lor, Nat.zero_testBit]
  rcases Nat.lt_or_ge i k with hik | hik
  · simp [hik, testBit_eq_false_of_mod_eq_zero ha hik,
      testBit_eq_false_of_mod_eq_zero hb hik]
  · simp [Nat.not_lt.mpr hik]

/-- In the non-overlapping regime (timestamp below 2 ^ 42, instance below
2 ^ 10, counter below 2 ^ 12) the encoded id is a sum of shifted fields. -/
theorem encodeId_eq_add {last inst idx : Nat} (hl : last < 2 ^ 42)
    (hi : inst < 2 ^ 10) (hx : idx < 2 ^ 12) :
    encodeId last inst idx = last * 2 ^ 22 + inst * 2 ^ 12 + idx := by
  have h1 : (last * 2 ^ 22) % 2 ^ 64 = last * 2 ^ 22 := Nat.mod_eq_of_lt (by omega)
  have h2 : (inst * 2 ^ 12) % 2 ^ 32 = inst * 2 ^ 12 := Nat.mod_eq_of_lt (by omega)
  have h3 : sext32 (inst * 2 ^ 12) = inst * 2 ^ 12 := by
    unfold sext32
    rw [if_pos (by omega)]
  have hAB : last * 2 ^ 22 ||| inst * 2 ^ 12 = last * 2 ^ 22 + inst * 2 ^ 12 :=
    lor_eq_add_of_mod_eq_zero (a := last * 2 ^ 22) (b := inst * 2 ^ 12) (k := 22)
      (by omega) (by omega)
  unfold encodeId
  rw [h1, h2, h3, hAB,
    lor_eq_add_of_mod_eq_zero (k := 12) (by omega) hx]

/-- The low 12 bits of an encoded id are exactly the counter value. -/
theorem encodeId_mod_4096 (last inst idx : Nat) (hx : idx < 2 ^ 12) :
    encodeId last inst idx % 2 ^ 12 = idx := by
  unfold encodeId
  have hA : (last * 2 ^ 22) % 2 ^ 64 % 2 ^ 12 = 0 := by
    rw [Nat.mod_mod_of_dvd _ (by norm_num : (2 : Nat) ^ 12 ∣ 2 ^ 64)]
    have h22 : last * 2 ^ 22 = last * 2 ^ 10 * 2 ^ 12 := by ring
    rw [h22, Nat.mul_mod_left]
  have hB : sext32 ((inst * 2 ^ 12) % 2 ^ 32) % 2 ^ 12 = 0 := by
    have hy : (inst * 2 ^ 12) % 2 ^ 32 % 2 ^ 12 = 0 := by
      rw [Nat.mod_mod_of_dvd _ (by norm_num : (2 : Nat) ^ 12 ∣ 2 ^ 32),
        Nat.mul_mod_left]
    unfold sext32
    split
    · exact hy
    · omega
  have hAB := lor_mod_two_pow_eq_zero (k := 12) hA hB
  rw [lor_eq_add_of_mod_eq_zero (k := 12) hAB hx, Nat.add_mod, hAB]
  omega

/-- C1: a successful generate call returns exactly the value
(last_time_millis << 22) | (instance << 12) | sequence computed from the
post-call field values: timestamp most significant, then instance, then
the sequence counter. -/
theorem generate_returns_encoding_of_post_state
    (s : SnowflakeIdGen) (t id : Nat) (s1 : SnowflakeIdGen)
    (h : generate_with_millis s t = (some id, s1)) :
    id = encodeId s1.last_time_millis s1.instance_ s1.idx := by
  obtain ⟨-, hinst, hlast, -, -, hid, -, -⟩ := generate_some_eq h
  rw [hid, hlast, hinst]

/-- C1 witness at a fresh generator with instance 7 and clock read 5. -/
theorem generate_returns_encoding_of_post_state_witness :
    (21000193 : Nat) = encodeId 5 7 1 :=
  generate_returns_encoding_of_post_state (with_epoch 7 0 0) 5 21000193
    ⟨0, 5, 7, 1⟩ (by decide)

/-- C4: a call that returns EXHAUSTED (none) leaves the entire generator
state (epoch, last_time_millis, instance and the counter) unchanged. -/
theorem exhausted_leaves_state_unchanged
    (s : SnowflakeIdGen) (t : Nat) (s1 : SnowflakeIdGen)
    (h : generate_with_millis s t = (none, s1)) : s1 = s :=
  (generate_none_eq h).1

/-- C4 witness at a saturated generator. -/
theorem exhausted_leaves_state_unchanged_witness :
    (⟨0, 0, 0, 4095⟩ : SnowflakeIdGen) = ⟨0, 0, 0, 4095⟩ :=
  exhausted_leaves_state_unchanged ⟨0, 0, 0, 4095⟩ 0 ⟨0, 0, 0, 4095⟩ (by decide)

/-- C5: when the clock read differs from the stored last_time_millis the
call succeeds, the low 12 bits of the returned id are 1 (not 0), and the
post-call counter is 1. -/
theorem new_millis_yields_sequence_one
    (s : SnowflakeIdGen) (t : Nat) (hne : t ≠ s.last_time_millis) :
    ∃ id s1, generate_with_millis s t = (some id, s1) ∧
      id % 2 ^ 12 = 1 ∧ s1.idx = 1 := by
  unfold generate_with_millis
  rw [if_neg hne]
  refine ⟨_, _, rfl, ?_, by norm_num⟩
  have h1 : (0 + 1) % 2 ^ 16 = 1 := by norm_num
  simp only [h1]
  exact encodeId_mod_4096 t s.instance_ 1 (by norm_num)

/-- C5 witness: a clock tick from 0 to 1. -/
theorem new_millis_yields_sequence_one_witness :
    ∃ id s1, generate_with_millis (with_epoch 0 0 0) 1 = (some id, s1) ∧
      id % 2 ^ 12 = 1 ∧ s1.idx = 1 :=
  new_millis_yields_sequence_one (with_epoch 0 0 0) 1 (by decide)

/-- C9 counterexample: instance 1024 lies inside the documented range
0-4095, but decoding the encoded id does not give back the triple: the
shifted instance overlaps the low bits of the timestamp field. -/
theorem decode_encode_roundtrip_cex :
    (1024 : Nat) ≤ 4095 ∧ decode (encodeId 0 1024 0) ≠ (0, 1024, 0) := by decide

/-- C9 amended: the round trip holds once the instance is restricted to
the 10 bits the documented layout actually allocates to it (0-1023), with
timestamp in 42 bits and sequence in 12 bits. -/
theorem decode_encode_roundtrip (ts inst seq : Nat) (hts : ts < 2 ^ 42)
    (hi : inst < 2 ^ 10) (hs : seq < 2 ^ 12) :
    decode (encodeId ts inst seq) = (ts, inst, seq) := by
  rw [encodeId_eq_add hts hi hs]
  unfold decode
  simp only [Nat.shiftRight_eq_div_pow, Prod.mk.injEq]
  refine ⟨?_, ?_, ?_⟩ <;> omega

/-- C9 witness on the triple (3, 5, 7). -/
theorem decode_encode_roundtrip_witness :
    decode (encodeId 3 5 7) = (3, 5, 7) :=
  decode_encode_roundtrip 3 5 7 (by norm_num) (by norm_num) (by norm_num)

/-- C10: the instance tag is an i32 shifted left by 12 in 32-bit
arithmetic and then sign extended to 64 bits; for every instance whose
signed value lies in [-2 ^ 19, -1], every successful call returns an id
that is negative as an i64. -/
theorem negative_instance_yields_negative_id
    (s : SnowflakeIdGen) (t id : Nat) (s1 : SnowflakeIdGen)
    (hw : s.instance_ < 2 ^ 32)
    (hlo : -(2 ^ 19) ≤ toI32 s.instance_) (hhi : toI32 s.instance_ ≤ -1)
    (h : generate_with_millis s t = (some id, s1)) : toI64 id < 0 := by
  obtain ⟨-, -, -, -, hile, hid, -, -⟩ := generate_some_eq h
  have hx : 2 ^ 32 - 2 ^ 19 ≤ s.instance_ ∧ s.instance_ < 2 ^ 32 := by
    unfold toI32 at hlo hhi
    split at hlo <;> split at hhi <;> omega
  have hy : 2 ^ 31 ≤ (s.instance_ * 2 ^ 12) % 2 ^ 32 := by omega
  have hB : 2 ^ 63 ≤ sext32 ((s.instance_ * 2 ^ 12) % 2 ^ 32) ∧
      sext32 ((s.instance_ * 2 ^ 12) % 2 ^ 32) < 2 ^ 64 := by
    unfold sext32
    split <;> omega
  have hBdiv : sext32 ((s.instance_ * 2 ^ 12) % 2 ^ 32) / 2 ^ 63 = 1 := by omega
  have hB63 : (sext32 ((s.instance_ * 2 ^ 12) % 2 ^ 32)).testBit 63 = true := by
    rw [Nat.testBit_to_div_mod, hBdiv]
    norm_num
  have hid63 : id.testBit 63 = true := by
    rw [hid]
    unfold encodeId
    rw [Nat.testBit_lor, Nat.testBit_lor, hB63]
    simp
  have hidlt : id < 2 ^ 64 := by
    rw [hid]
    unfold encodeId
    exact Nat.or_lt_two_pow
      (Nat.or_lt_two_pow (Nat.mod_lt _ (by norm_num)) (by omega)) (by omega)
  have hidge : 2 ^ 63 ≤ id := Nat.testBit_implies_ge hid63
  unfold toI64
  rw [if_neg (by omega)]
  have h64 : ((2 : Int) ^ 64) = ((2 ^ 64 : Nat) : Int) := by norm_num
  omega

/-- C10 witness at the instance pattern of the i32 value -1. -/
theorem negative_instance_yields_negative_id_witness :
    toI64 18446744073709547521 < 0 :=
  negative_instance_yields_negative_id ⟨0, 0, 4294967295, 0⟩ 0
    18446744073709547521 ⟨0, 0, 4294967295, 1⟩ (by norm_num)
    (by decide) (by decide) (by decide)

/-- Running two call sequences in a row composes. -/
theorem runState_append (s : SnowflakeIdGen) (l1 l2 : List Nat) :
    runState s (l1 ++ l2) = runState (runState s l1) l2 := by
  induction l1 generalizing s with
  | nil => rfl
  | cons t ts ih =>
    simp only [List.cons_append, runState]
    exact ih _

/-- After n + 1 calls with the clock frozen at T, the state of a fresh
generator stores T and the counter min (n + 1) 4095. -/
theorem runState_replicate (inst ep t0 T n : Nat) :
    runState (with_epoch inst ep t0) (List.replicate (n + 1) T) =
      { epoch := ep, last_time_millis := T, instance_ := inst,
        idx := min (n + 1) 4095 } := by
  induction n with
  | zero =>
    show (generate_with_millis (with_epoch inst ep t0) T).2 = _
    unfold generate_with_millis with_epoch
    split
    next hT =>
      rw [if_neg (by norm_num)]
      simp_all [SnowflakeIdGen.mk.injEq]
    next hT =>
      simp [SnowflakeIdGen.mk.injEq]
  | succ n ih =>
    rw [List.replicate_succ' (n + 1), runState_append, ih]
    show (generate_with_millis _ T).2 = _
    unfold generate_with_millis
    dsimp only
    rw [if_pos rfl]
    split
    next h =>
      have hmin : min (n + 1 + 1) 4095 = min (n + 1) 4095 := by omega
      rw [hmin]
    next h =>
      have hmin : (min (n + 1) 4095 + 1) % 2 ^ 16 =
          min (n + 1 + 1) 4095 := by omega
      rw [hmin]

/-- C3: with the clock frozen at T, the call made after n earlier calls
on a freshly constructed generator succeeds exactly when n < 4095: the
first 4095 calls succeed, the 4096th returns EXHAUSTED, and every further
call keeps returning EXHAUSTED while the clock is unchanged. -/
theorem frozen_clock_saturates (inst ep t0 T n : Nat) :
    (generate_with_millis (runState (with_epoch inst ep t0)
        (List.replicate n T)) T).1.isSome ↔ n < 4095 := by
  cases n with
  | zero =>
    show (generate_with_millis (with_epoch inst ep t0) T).1.isSome ↔ _
    unfold generate_with_millis with_epoch
    split
    · rw [if_neg (by norm_num)]
      simp
    · simp
  | succ n =>
    rw [runState_replicate]
    unfold generate_with_millis
    dsimp only
    rw [if_pos rfl]
    split
    next h =>
      simp only [Option.isSome_none, Bool.false_eq_true, false_iff]
      omega
    next h =>
      simp only [Option.isSome_some, true_iff]
      omega

/-- One call keeps the counter within the 12-bit budget. -/
theorem generate_idx_le (s : SnowflakeIdGen) (t : Nat) (h : s.idx ≤ 4095) :
    (generate_with_millis s t).2.idx ≤ 4095 := by
  cases hgen : generate_with_millis s t with
  | mk o s1 =>
    cases o with
    | none =>
      obtain ⟨rfl, -, -⟩ := generate_none_eq hgen
      exact h
    | some id =>
      obtain ⟨-, -, -, -, hle, -, -, -⟩ := generate_some_eq hgen
      exact hle

/-- Any call sequence keeps the counter within the 12-bit budget. -/
theorem runState_idx_le (ts : List Nat) (s : SnowflakeIdGen)
    (h : s.idx ≤ 4095) : (runState s ts).idx ≤ 4095 := by
  induction ts generalizing s with
  | nil => exact h
  | cons t ts ih => exact ih _ (generate_idx_le s t h)

/-- C6: starting from construction, the sequence counter stays in
[0, 4095] after every call of any call sequence, successful or EXHAUSTED,
for any clock reads: it fails on saturation instead of wrapping past
4095. -/
theorem sequence_counter_bounded (inst ep t0 t : Nat) (ts : List Nat) :
    (runState (with_epoch inst ep t0) ts).idx ≤ 4095 ∧
      (generate_with_millis (runState (with_epoch inst ep t0) ts) t).2.idx ≤ 4095 := by
  have h0 : (with_epoch inst ep t0).idx ≤ 4095 := by norm_num [with_epoch]
  have h1 := runState_idx_le ts _ h0
  exact ⟨h1, generate_idx_le _ t h1⟩

/-- Strict lexicographic order on (last_time_millis, idx) pairs. -/
def pairLt (p q : Nat × Nat) : Prop :=
  p.1 < q.1 ∨ (p.1 = q.1 ∧ p.2 < q.2)

instance : IsTrans (Nat × Nat) pairLt :=
  ⟨by
    intro a b c hab hbc
    unfold pairLt at *
    omega⟩

/-- When every upcoming clock read is at least the stored time and the
reads are non-decreasing, the recorded pairs grow strictly in the
lexicographic order, starting from the current state pair. -/
theorem chain_pairLt_runPairs (ts : List Nat) (s : SnowflakeIdGen)
    (hsort : List.Sorted (· ≤ ·) ts)
    (hge : ∀ t ∈ ts, s.last_time_millis ≤ t) :
    List.Chain pairLt (s.last_time_millis, s.idx) (runPairs s ts) := by
  induction ts generalizing s with
  | nil => exact List.Chain.nil
  | cons u us ih =>
    obtain ⟨hu_le, hsort2⟩ := List.sorted_cons.mp hsort
    have hsu : s.last_time_millis ≤ u := hge u (List.mem_cons_self u us)
    cases hgen : generate_with_millis s u with
    | mk o s1 =>
      cases o with
      | none =>
        obtain ⟨rfl, -, -⟩ := generate_none_eq hgen
        simp only [runPairs, hgen]
        exact ih s1 hsort2 fun t ht => le_trans hsu (hu_le t ht)
      | some id =>
        obtain ⟨-, -, hlast, -, -, -, hsame, hdiff⟩ := generate_some_eq hgen
        simp only [runPairs, hgen]
        refine List.Chain.cons ?_ (ih s1 hsort2 ?_)
        · by_cases he : u = s.last_time_millis
          · obtain ⟨-, hidx⟩ := hsame he
            unfold pairLt
            omega
          · have hlt : s.last_time_millis < u :=
              lt_of_le_of_ne hsu fun h2 => he h2.symm
            unfold pairLt
            omega
        · intro t ht
          rw [hlast]
          exact hu_le t ht

/-- With non-decreasing clock reads, the recorded pairs of any run grow
strictly in the lexicographic order. -/
theorem chain'_pairLt_runPairs (s : SnowflakeIdGen) (ts : List Nat)
    (hsort : List.Sorted (· ≤ ·) ts) :
    List.Chain' pairLt (runPairs s ts) := by
  induction ts generalizing s with
  | nil => exact List.chain'_nil
  | cons u us ih =>
    obtain ⟨hu_le, hsort2⟩ := List.sorted_cons.mp hsort
    cases hgen : generate_with_millis s u with
    | mk o s1 =>
      cases o with
      | none =>
        obtain ⟨rfl, -, -⟩ := generate_none_eq hgen
        simp only [runPairs, hgen]
        exact ih s1 hsort2
      | some id =>
        obtain ⟨-, -, hlast, -, -, -, -, -⟩ := generate_some_eq hgen
        simp only [runPairs, hgen]
        exact chain_pairLt_runPairs us s1 hsort2 fun t ht => by
          rw [hlast]
          exact hu_le t ht

/-- Every pair recorded by a run has its time among the clock reads and
its counter in [1, 4095]. -/
theorem runPairs_mem (s : SnowflakeIdGen) (ts : List Nat) :
    ∀ p ∈ runPairs s ts, p.1 ∈ ts ∧ 1 ≤ p.2 ∧ p.2 ≤ 4095 := by
  induction ts generalizing s with
  | nil => simp [runPairs]
  | cons u us ih =>
    intro p hp
    cases hgen : generate_with_millis s u with
    | mk o s1 =>
      cases o with
      | none =>
        simp only [runPairs, hgen] at hp
        obtain ⟨h1, h2, h3⟩ := ih s1 p hp
        exact ⟨List.mem_cons_of_mem u h1, h2, h3⟩
      | some id =>
        obtain ⟨-, -, hlast, hge1, hle, -, -, -⟩ := generate_some_eq hgen
        simp only [runPairs, hgen, List.mem_cons] at hp
        rcases hp with rfl | hp
        · exact ⟨by rw [hlast]; exact List.mem_cons_self u us, hge1, hle⟩
        · obtain ⟨h1, h2, h3⟩ := ih s1 p hp
          exact ⟨List.mem_cons_of_mem u h1, h2, h3⟩

/-- The ids of a run are the encodings of its recorded pairs with the
fixed instance tag. -/
theorem runIds_eq_map (s : SnowflakeIdGen) (ts : List Nat) :
    runIds s ts =
      (runPairs s ts).map fun p => encodeId p.1 s.instance_ p.2 := by
  induction ts generalizing s with
  | nil => rfl
  | cons u us ih =>
    cases hgen : generate_with_millis s u with
    | mk o s1 =>
      cases o with
      | none =>
        obtain ⟨rfl, -, -⟩ := generate_none_eq hgen
        simp only [runIds, runPairs, hgen]
        exact ih s1
      | some id =>
        obtain ⟨-, hinst, hlast, -, -, hid, -, -⟩ := generate_some_eq hgen
        simp only [runIds, runPairs, hgen, List.map_cons]
        rw [hid, hlast, ih s1, hinst]

/-- Transport of Chain' along an implication valid on list members. -/
theorem chain'_imp_of_mem {α : Type} {R S : α → α → Prop} :
    ∀ {l : List α}, (∀ a ∈ l, ∀ b ∈ l, R a b → S a b) →
      List.Chain' R l → List.Chain' S l := by
  intro l
  induction l with
  | nil => intro _ _; exact List.chain'_nil
  | cons a l2 ih =>
    intro h hc
    cases l2 with
    | nil => exact List.chain'_singleton a
    | cons b l3 =>
      rw [List.chain'_cons] at hc ⊢
      refine ⟨h a (List.mem_cons_self _ _) b
        (List.mem_cons_of_mem _ (List.mem_cons_self _ _)) hc.1, ?_⟩
      exact ih (fun x hx y hy =>
        h x (List.mem_cons_of_mem _ hx) y (List.mem_cons_of_mem _ hy)) hc.2

/-- C2 counterexample: with clock reads 5, 3, 5 (a rollback) every call
succeeds and the (timestamp, sequence) pair (5, 1) is recorded twice. -/
theorem distinct_pairs_cex :
    runPairs (with_epoch 0 0 0) [5, 3, 5] = [(5, 1), (3, 1), (5, 1)] ∧
      ¬ List.Pairwise (· ≠ ·) (runPairs (with_epoch 0 0 0) [5, 3, 5]) := by
  decide

/-- C2 amended: for a fixed generator whose successive clock reads are
non-decreasing, the (last_time_millis, sequence) pairs recorded by the
successful calls are pairwise distinct. -/
theorem distinct_pairs_of_sorted (s : SnowflakeIdGen) (ts : List Nat)
    (hsort : List.Sorted (· ≤ ·) ts) :
    List.Pairwise (· ≠ ·) (runPairs s ts) := by
  have h := List.chain'_iff_pairwise.mp (chain'_pairLt_runPairs s ts hsort)
  refine h.imp ?_
  intro a b hab
  rintro rfl
  unfold pairLt at hab
  omega

/-- C2 witness on the sorted reads 0, 0, 1. -/
theorem distinct_pairs_of_sorted_witness :
    List.Pairwise (· ≠ ·) (runPairs (with_epoch 0 0 0) [0, 0, 1]) :=
  distinct_pairs_of_sorted (with_epoch 0 0 0) [0, 0, 1] (by decide)

/-- C7 counterexample: instance 2048 is inside the documented range
0-4095, the clock reads 1, 2 are non-decreasing, yet the two successful
ids decrease as unsigned 64-bit values, because the shifted instance
overlaps the low timestamp bits. -/
theorem ids_monotone_cex :
    List.Sorted (· ≤ ·) [1, 2] ∧ (2048 : Nat) ≤ 4095 ∧
      runIds (with_epoch 2048 0 0) [1, 2] = [12582913, 8388609] ∧
      ¬ List.Chain' (· ≤ ·) (runIds (with_epoch 2048 0 0) [1, 2]) := by
  refine ⟨by decide, by decide, by decide, ?_⟩
  intro hch
  have he : runIds (with_epoch 2048 0 0) [1, 2] = [12582913, 8388609] := by
    decide
  rw [he, List.chain'_cons] at hch
  exact absurd hch.1 (by decide)

/-- C7 amended: for a fixed generator whose instance tag fits in the 10
bits below the timestamp field (0-1023) and whose non-decreasing clock
reads fit in the 42-bit timestamp field, the ids of successive successful
calls are non-decreasing as unsigned 64-bit values. -/
theorem ids_monotone_of_sorted (s : SnowflakeIdGen) (ts : List Nat)
    (hinst : s.instance_ < 2 ^ 10) (hts : ∀ t ∈ ts, t < 2 ^ 42)
    (hsort : List.Sorted (· ≤ ·) ts) :
    List.Chain' (· ≤ ·) (runIds s ts) := by
  rw [runIds_eq_map, List.chain'_map]
  refine chain'_imp_of_mem ?_ (chain'_pairLt_runPairs s ts hsort)
  intro p hp q hq hpq
  obtain ⟨hpt, hp1, hp2⟩ := runPairs_mem s ts p hp
  obtain ⟨hqt, hq1, hq2⟩ := runPairs_mem s ts q hq
  rw [encodeId_eq_add (hts _ hpt) hinst (by omega),
    encodeId_eq_add (hts _ hqt) hinst (by omega)]
  unfold pairLt at hpq
  omega

/-- C7 witness with instance 5 and reads 1, 1, 2. -/
theorem ids_monotone_of_sorted_witness :
    List.Chain' (· ≤ ·) (runIds (with_epoch 5 0 0) [1, 1, 2]) :=
  ids_monotone_of_sorted (with_epoch 5 0 0) [1, 1, 2] (by norm_num [with_epoch])
    (by decide) (by decide)

/-- C8 counterexample: with instance 2048 a rollback call (read 1 after
the stored time 2) succeeds, but the timestamp field of the new id (bits
63..22, here 3) is larger, not smaller, than the previous one (2): the
instance bits leak into the timestamp field. -/
theorem rollback_timestamp_field_cex :
    (generate_with_millis (with_epoch 2048 0 0) 2).1 = some 8388609 ∧
      (generate_with_millis (with_epoch 2048 0 0) 2).2.last_time_millis = 2 ∧
      (1 : Nat) < 2 ∧
      (generate_with_millis
        (generate_with_millis (with_epoch 2048 0 0) 2).2 1).1 = some 12582913 ∧
      ¬ (12582913 : Nat) >>> 22 < (8388609 : Nat) >>> 22 := by
  decide

/-- C8 amended: a clock read strictly below the stored last_time_millis
is not rejected: the call takes the time-advanced branch, stores the
smaller read, resets the counter to 1 and succeeds; and provided the
instance fits in 10 bits and the times in 42 bits (so the fields do not
overlap), the returned id's timestamp field is smaller than that of the
previously issued id. -/
theorem rollback_not_detected (s : SnowflakeIdGen) (t1 t2 id1 : Nat)
    (s1 : SnowflakeIdGen) (h1 : generate_with_millis s t1 = (some id1, s1))
    (hlt : t2 < t1) (ht1 : t1 < 2 ^ 42) (hinst : s.instance_ < 2 ^ 10) :
    t2 < s1.last_time_millis ∧
      (generate_with_millis s1 t2).1 = some (encodeId t2 s.instance_ 1) ∧
      (generate_with_millis s1 t2).2.last_time_millis = t2 ∧
      (generate_with_millis s1 t2).2.idx = 1 ∧
      encodeId t2 s.instance_ 1 >>> 22 < id1 >>> 22 := by
  obtain ⟨-, hi1, hlast, -, hle, hid, -, -⟩ := generate_some_eq h1
  have hne : t2 ≠ s1.last_time_millis := by rw [hlast]; omega
  have hstep : generate_with_millis s1 t2 =
      (some (encodeId t2 s1.instance_ 1),
        { s1 with last_time_millis := t2, idx := 1 }) := by
    unfold generate_with_millis
    rw [if_neg hne]
    norm_num
  rw [hstep, hi1]
  refine ⟨by omega, rfl, rfl, rfl, ?_⟩
  rw [hid, encodeId_eq_add ht1 hinst (by omega),
    encodeId_eq_add (by omega) hinst (by omega), Nat.shiftRight_eq_div_pow,
    Nat.shiftRight_eq_div_pow]
  omega

/-- C8 witness: instance 5, stored time 10, rollback read 3. -/
theorem rollback_not_detected_witness :
    (3 : Nat) < (⟨0, 10, 5, 1⟩ : SnowflakeIdGen).last_time_millis ∧
      (generate_with_millis ⟨0, 10, 5, 1⟩ 3).1 = some (encodeId 3 5 1) ∧
      (generate_with_millis ⟨0, 10, 5, 1⟩ 3).2.last_time_millis = 3 ∧
      (generate_with_millis ⟨0, 10, 5, 1⟩ 3).2.idx = 1 ∧
      encodeId 3 5 1 >>> 22 < (41963521 : Nat) >>> 22 :=
  rollback_not_detected (with_epoch 5 0 0) 10 3 41963521 ⟨0, 10, 5, 1⟩
    (by decide) (by decide) (by decide) (by norm_num [with_epoch])
